import Mathlib

/-!
Verification of the connection registry and event-routing core of the
Bitrix websocket server.

The repository contains three source variants:

* a user-keyed variant (`src/index.ts`, first part): `clients : Map<string,
  Set<WS>>` with `add`, `remove`, `send` and a per-connection `registered`
  flag in the `ws.on("message")` handler;
* a user-keyed variant with a heartbeat (`src/unnamed/part_000`):
  `addClient`, `removeClient`, `sendToUser`, a `pong` handler setting
  `ws.isAlive = true`, and a `setInterval` tick that terminates sockets
  whose `isAlive` flag is `false`;
* a job-keyed Bun variant (`src/index.ts`, last part): `clientIds : Map<WS,
  string>`, `clientJobs : Map<WS, Set<string>>`, `jobSubscriptions :
  Map<string, WS>`, with `open`, `message` (subscribe) and `close`
  handlers, and a redis `message` callback routing job updates.

JavaScript `Map`s are embedded as association lists (`mget`, `mset`,
`mdel`) and `Set`s as duplicate-free lists in insertion order (`sadd`,
`sdel`).  Connections (the `WS` socket objects) are natural numbers; the
mutable `ws.userId` field is carried in the state as a finite map from
connections to user ids, and `ws.readyState === WebSocket.OPEN` is an
external predicate `openS : Conn → Bool` supplied by the transport layer.
-/

namespace WsRelay

abbrev Conn := Nat
abbrev UserId := String
abbrev JobId := String

/-! ### Association-list maps and insertion-ordered sets -/

/-- Lookup in an association list, embedding `Map.prototype.get`. -/
def mget {α β : Type} [DecidableEq α] (k : α) : List (α × β) → Option β
  | [] => none
  | (a, b) :: t => if a = k then some b else mget k t

/-- Update or insert, embedding `Map.prototype.set`. -/
def mset {α β : Type} [DecidableEq α] (k : α) (v : β) : List (α × β) → List (α × β)
  | [] => [(k, v)]
  | (a, b) :: t => if a = k then (k, v) :: t else (a, b) :: mset k v t

/-- Deletion, embedding `Map.prototype.delete`. -/
def mdel {α β : Type} [DecidableEq α] (k : α) : List (α × β) → List (α × β)
  | [] => []
  | (a, b) :: t => if a = k then mdel k t else (a, b) :: mdel k t

/-- Embedding of `Set.prototype.add`: append when absent. -/
def sadd {α : Type} [DecidableEq α] (x : α) (s : List α) : List α :=
  if x ∈ s then s else s ++ [x]

/-- Embedding of `Set.prototype.delete`. -/
def sdel {α : Type} [DecidableEq α] (x : α) (s : List α) : List α :=
  s.filter (fun y => y ≠ x)

variable {α β : Type} [DecidableEq α]

theorem mget_mset_self (k : α) (v : β) (m : List (α × β)) :
    mget k (mset k v m) = some v := by
  induction m with
  | nil => simp [mget, mset]
  | cons p t ih =>
    obtain ⟨a, b⟩ := p
    by_cases h : a = k
    · simp [mget, mset, h]
    · simp [mget, mset, h, ih]

theorem mget_mset_ne {k k' : α} (v : β) (m : List (α × β)) (h : k' ≠ k) :
    mget k' (mset k v m) = mget k' m := by
  induction m with
  | nil => simp [mget, mset, Ne.symm h]
  | cons p t ih =>
    obtain ⟨a, b⟩ := p
    by_cases ha : a = k
    · subst ha
      simp [mget, mset, Ne.symm h]
    · by_cases ha' : a = k'
      · simp [mget, mset, ha, ha', h]
      · simp [mget, mset, ha, ha', ih]

theorem mget_mdel_self (k : α) (m : List (α × β)) :
    mget k (mdel k m) = none := by
  induction m with
  | nil => simp [mget, mdel]
  | cons p t ih =>
    obtain ⟨a, b⟩ := p
    by_cases h : a = k
    · simp [mdel, h, ih]
    · simp [mget, mdel, h, ih]

theorem mget_mdel_ne {k k' : α} (m : List (α × β)) (h : k' ≠ k) :
    mget k' (mdel k m) = mget k' m := by
  induction m with
  | nil => simp [mdel]
  | cons p t ih =>
    obtain ⟨a, b⟩ := p
    by_cases ha : a = k
    · subst ha
      simp [mget, mdel, Ne.symm h, ih]
    · by_cases ha' : a = k'
      · simp [mget, mdel, ha, ha', h]
      · simp [mget, mdel, ha, ha', ih]

theorem mset_mset_self (k : α) (v : β) (m : List (α × β)) :
    mset k v (mset k v m) = mset k v m := by
  induction m with
  | nil => simp [mset]
  | cons p t ih =>
    obtain ⟨a, b⟩ := p
    by_cases h : a = k
    · simp [mset, h]
    · simp [mset, h, ih]

theorem mem_sadd_self (x : α) (s : List α) : x ∈ sadd x s := by
  by_cases h : x ∈ s <;> simp [sadd, h]

theorem mem_sadd_of_mem {y : α} (x : α) {s : List α} (h : y ∈ s) :
    y ∈ sadd x s := by
  by_cases hx : x ∈ s <;> simp [sadd, hx, h]

theorem not_mem_sdel_self (x : α) (s : List α) : x ∉ sdel x s := by
  simp [sdel]

theorem mem_sdel_iff {x y : α} {s : List α} :
    y ∈ sdel x s ↔ y ∈ s ∧ y ≠ x := by
  simp [sdel]

theorem sdel_sdel_self (x : α) (s : List α) :
    sdel x (sdel x s) = sdel x s := by
  simp [sdel, List.filter_filter]

/-! ### User-keyed registry (src/index.ts first variant and src/unnamed/part_000)

Both user-keyed variants share the same registry logic; `add`/`addClient`,
`remove`/`removeClient` and `send`/`sendToUser` differ only in logging.
`UState.clients` embeds the `clients` map, `UState.userOf` the mutable
`ws.userId` field of the socket objects. -/

structure UState where
  clients : List (UserId × List Conn)
  userOf : List (Conn × UserId)
deriving Repr, DecidableEq

/-- Embedding of `add(userId, ws)` / `addClient(userId, ws)`: fetch or
create the user set, set `ws.userId = userId`, add `ws` to the set. -/
def add (userId : UserId) (ws : Conn) (s : UState) : UState :=
  let set := (mget userId s.clients).getD []
  { clients := mset userId (sadd ws set) s.clients,
    userOf := mset ws userId s.userOf }

/-- Embedding of `remove(ws)` / `removeClient(ws)`: the guard
`if (!id) return` early-returns both when `ws.userId` is unset and when it
is the empty string (JS falsiness — the empty string is registrable, since
the register handler only checks `typeof msg.userId === "string"`);
otherwise delete `ws` from the user set (if present) and delete the user
entry when the set becomes empty. -/
def remove (ws : Conn) (s : UState) : UState :=
  match mget ws s.userOf with
  | none => s
  | some id =>
    if id = "" then s
    else
      match mget id s.clients with
      | none => s
      | some set =>
        let set2 := sdel ws set
        if set2.length = 0 then { s with clients := mdel id s.clients }
        else { s with clients := mset id set2 s.clients }

/-- Embedding of `send(userId, payload)` / `sendToUser(userId, payload)`:
the list of connections the payload is written to, in set iteration order.
The payload itself is opaque to the routing decision. -/
def send (openS : Conn → Bool) (userId : UserId) (s : UState) : List Conn :=
  match mget userId s.clients with
  | none => []
  | some set => set.filter openS

/-- Number of successful sends performed by `send`, the observable
delivery count (the TypeScript function returns void; the count is the
number of `ws.send` calls it makes). -/
def sendCount (openS : Conn → Bool) (userId : UserId) (s : UState) : Nat :=
  (send openS userId s).length

/-- Number of times `send` evaluates `JSON.stringify(payload)`: zero on
the early return when the user has no entry, once otherwise. -/
def serializeCount (userId : UserId) (s : UState) : Nat :=
  match mget userId s.clients with
  | none => 0
  | some _ => 1

/-! ### Ingress handlers -/

/-- Outbound frames the handlers produce (the JSON bodies the code builds
with `JSON.stringify`). -/
inductive OutMsg
  | registered (userId : UserId)
  | subscribed (jobId : JobId)
  | connected (clientId : String)
deriving Repr, DecidableEq

/-- Observable transport-layer effects of a handler invocation. -/
inductive Action
  | sendMsg (ws : Conn) (payload : OutMsg)
  | close (ws : Conn) (code : Nat) (reason : String)
deriving Repr, DecidableEq

/-- Shape classes of an inbound frame after `JSON.parse`:
`register u` is a frame satisfying `msg.type === "register" &&
typeof msg.userId === "string"`; `other` is any other successfully parsed
frame (wrong type, or non-string `userId`); `badJson` is a frame on which
`JSON.parse` throws. -/
inductive InMsg
  | register (userId : UserId)
  | other
  | badJson
deriving Repr, DecidableEq

/-- Embedding of the `ws.on("message")` handler of the first user-keyed
variant (src/index.ts lines 40-54): if already registered, ignore;
otherwise a register frame adds the client and acks, any other parsed
frame closes with 1003, and a parse failure closes with 1003.
Returns the new `registered` flag, the new registry state, and the
emitted actions. -/
def handleMessage (ws : Conn) (m : InMsg) (registered : Bool) (s : UState) :
    Bool × UState × List Action :=
  if registered then (registered, s, [])
  else
    match m with
    | .register uid =>
        (true, add uid ws s, [.sendMsg ws (.registered uid)])
    | .other =>
        (registered, s, [.close ws 1003 "First message must be register"])
    | .badJson =>
        (registered, s, [.close ws 1003 "Invalid JSON"])

/-- Embedding of the `ws.on("message")` handler of the heartbeat variant
(src/unnamed/part_000 lines 80-105): a parse failure is logged and
dropped (early `return`, no close); then, when unregistered, a register
frame adds the client and acks while any other frame closes with 1003;
when registered, all frames fall through to the empty
future-messages section. -/
def hbHandleMessage (ws : Conn) (m : InMsg) (registered : Bool) (s : UState) :
    Bool × UState × List Action :=
  match m with
  | .badJson => (registered, s, [])
  | .register uid =>
      if registered then (registered, s, [])
      else (true, add uid ws s, [.sendMsg ws (.registered uid)])
  | .other =>
      if registered then (registered, s, [])
      else (registered, s, [.close ws 1003 "First message must be a register message"])

/-- Folds a sequence of inbound frames through `handleMessage`,
accumulating the registered flag and registry state. -/
def runMessages (ws : Conn) (msgs : List InMsg) (st : Bool × UState) :
    Bool × UState :=
  msgs.foldl (fun p m => ((handleMessage ws m p.1 p.2).1, (handleMessage ws m p.1 p.2).2.1)) st

/-- Folds a sequence of inbound frames through `hbHandleMessage`. -/
def hbRunMessages (ws : Conn) (msgs : List InMsg) (st : Bool × UState) :
    Bool × UState :=
  msgs.foldl (fun p m => ((hbHandleMessage ws m p.1 p.2).1, (hbHandleMessage ws m p.1 p.2).2.1)) st

/-! ### Registry invariants of the user-keyed variants -/

/-- Placement invariant of the reachable server states: a connection
appears in the set stored under a user id only if its `userId` field is
that user id.  It holds because each connection is added at most once
(the `registered` flag) and `add` sets `ws.userId` to the key it files
the connection under. -/
def Placed (s : UState) : Prop :=
  ∀ u l ws, mget u s.clients = some l → ws ∈ l → mget ws s.userOf = some u

/-- No user id maps to an empty connection set (`remove` deletes the
entry when the set drains; `add` always inserts a nonempty set). -/
def NoEmpty (s : UState) : Prop :=
  ∀ u l, mget u s.clients = some l → l ≠ []

/-! ### Heartbeat liveness monitor (src/unnamed/part_000)

`tracked` embeds `wss.clients`, `alive` the per-socket `isAlive` field
(absent for sockets that never reached the connection handler). -/

/-- Embedding of the `ws.on("pong")` callback: `ws.isAlive = true`. -/
def pongHandler (ws : Conn) (alive : List (Conn × Bool)) : List (Conn × Bool) :=
  mset ws true alive

/-- Result of one `setInterval` tick: the sockets terminated (those with
`isAlive === false`), the updated flags, and the sockets probed with
`ping()`. -/
structure TickResult where
  terminated : List Conn
  alive : List (Conn × Bool)
  probed : List Conn
deriving Repr, DecidableEq

/-- Embedding of the heartbeat tick (src/unnamed/part_000 lines 123-134):
every tracked socket with `isAlive === false` is terminated; every other
tracked socket has `isAlive` set to `false` and receives a ping. -/
def tick (tracked : List Conn) (alive : List (Conn × Bool)) : TickResult :=
  let dead := tracked.filter (fun c => decide (mget c alive = some false))
  let live := tracked.filter (fun c => ! decide (mget c alive = some false))
  { terminated := dead,
    alive := live.foldl (fun m c => mset c false m) alive,
    probed := live }

/-- Registry effect of one tick: each terminated socket fires its close
event, whose handler calls `removeClient`. -/
def reap (tracked : List Conn) (alive : List (Conn × Bool)) (s : UState) : UState :=
  (tick tracked alive).terminated.foldl (fun st c => remove c st) s

/-! ### Job-keyed Bun variant (src/index.ts last part) -/

/-- The three maps of the Bun variant: `clientIds : Map<WS, string>`,
`clientJobs : Map<WS, Set<string>>`, `jobSubscriptions : Map<string, WS>`. -/
structure JState where
  clientIds : List (Conn × String)
  clientJobs : List (Conn × List JobId)
  jobSubscriptions : List (JobId × Conn)
deriving Repr, DecidableEq

/-- Embedding of the Bun `open` handler: assign a client id (the
`crypto.randomUUID()` result is a parameter), create an empty job set,
and send the `connected` frame. -/
def jopen (ws : Conn) (clientId : String) (s : JState) : JState × List Action :=
  ({ clientIds := mset ws clientId s.clientIds,
     clientJobs := mset ws [] s.clientJobs,
     jobSubscriptions := s.jobSubscriptions },
   [.sendMsg ws (.connected clientId)])

/-- Shape classes of an inbound Bun frame: `subscribe j` is a parsed
frame with `action === "subscribe"` and a string `jobId` (the code also
requires `data.jobId` to be truthy, so the empty string falls through
unhandled); `other` is any other parsed frame; `badJson` fails to parse. -/
inductive JMsg
  | subscribe (jobId : JobId)
  | other
  | badJson
deriving Repr, DecidableEq

/-- Embedding of the Bun `message` handler (src/index.ts lines 349-365):
on `subscribe`, set `jobSubscriptions[jobId] = ws`, add the job to the
client job set when one exists (`clientJobs.get(ws)?.add(jobId)`), and
ack with a `subscribed` frame; everything else is ignored. -/
def jmessage (ws : Conn) (m : JMsg) (s : JState) : JState × List Action :=
  match m with
  | .subscribe jobId =>
      if jobId = "" then (s, [])
      else
        ({ clientIds := s.clientIds,
           clientJobs :=
             match mget ws s.clientJobs with
             | none => s.clientJobs
             | some js => mset ws (sadd jobId js) s.clientJobs,
           jobSubscriptions := mset jobId ws s.jobSubscriptions },
         [.sendMsg ws (.subscribed jobId)])
  | _ => (s, [])

/-- Embedding of the Bun `close` handler (src/index.ts lines 366-378):
delete every job in the closing client job set from `jobSubscriptions`
(unconditionally, whatever connection each entry currently holds), then
delete the client from `clientIds` and `clientJobs`. -/
def jclose (ws : Conn) (s : JState) : JState :=
  let jobs := (mget ws s.clientJobs).getD []
  { clientIds := mdel ws s.clientIds,
    clientJobs := mdel ws s.clientJobs,
    jobSubscriptions := jobs.foldl (fun m j => mdel j m) s.jobSubscriptions }

/-- Embedding of the redis `message` callback routing a job update
(src/index.ts lines 310-332): deliver to the single subscriber of the
job when it exists and its transport state is open, else to nobody. -/
def routeJob (openS : Conn → Bool) (jobId : JobId) (s : JState) : List Conn :=
  match mget jobId s.jobSubscriptions with
  | none => []
  | some ws => if openS ws then [ws] else []

/-- State of the Bun maps after connection `A` and then connection `B`
send a subscribe frame for job `J`: the scenario of property P4. -/
def afterTwoSubscribes (A B : Conn) (J : JobId) (s : JState) : JState :=
  (jmessage B (JMsg.subscribe J) ((jmessage A (JMsg.subscribe J) s).1)).1

/-- Reachable states of the Bun variant maps: the empty initial state,
closed under the three handlers.  The transport layer guarantees that
`open` fires once per fresh socket object and that `message` only fires
for a socket that has been opened and not yet closed. -/
inductive JReach : JState → Prop
  | init : JReach ⟨[], [], []⟩
  | opened (ws : Conn) (clientId : String) (s : JState) :
      JReach s → mget ws s.clientIds = none → JReach (jopen ws clientId s).1
  | message (ws : Conn) (m : JMsg) (s : JState) :
      JReach s → mget ws s.clientIds ≠ none → JReach (jmessage ws m s).1
  | closed (ws : Conn) (s : JState) :
      JReach s → JReach (jclose ws s)

/-- Invariant of the Bun variant: every job subscription points at a
tracked connection whose recorded job set contains the job. -/
def JInv (s : JState) : Prop :=
  ∀ J ws, mget J s.jobSubscriptions = some ws →
    mget ws s.clientIds ≠ none ∧ ∃ js, mget ws s.clientJobs = some js ∧ J ∈ js

/-- Auxiliary invariant: `clientIds` and `clientJobs` track exactly the
same connections. -/
def JKeysEq (s : JState) : Prop :=
  ∀ ws : Conn, mget ws s.clientIds = none ↔ mget ws s.clientJobs = none

/-! ### Lemmas about `remove` -/

theorem remove_eq_of_unregistered {ws : Conn} {s : UState}
    (hw : mget ws s.userOf = none) : remove ws s = s := by
  unfold remove
  rw [hw]

theorem remove_eq_of_falsy {ws : Conn} {s : UState}
    (hw : mget ws s.userOf = some "") : remove ws s = s := by
  unfold remove
  simp [hw]

theorem remove_eq_of_no_set {ws : Conn} {s : UState} {id : UserId}
    (hw : mget ws s.userOf = some id) (hid : ¬ id = "")
    (hc : mget id s.clients = none) :
    remove ws s = s := by
  unfold remove
  simp only [hw, hid, if_false, hc]

theorem remove_eq_of_drained {ws : Conn} {s : UState} {id : UserId}
    {set : List Conn} (hw : mget ws s.userOf = some id) (hid : ¬ id = "")
    (hc : mget id s.clients = some set) (h0 : (sdel ws set).length = 0) :
    remove ws s = { s with clients := mdel id s.clients } := by
  unfold remove
  simp only [hw, hid, if_false, hc, h0, if_true]

theorem remove_eq_of_left {ws : Conn} {s : UState} {id : UserId}
    {set : List Conn} (hw : mget ws s.userOf = some id) (hid : ¬ id = "")
    (hc : mget id s.clients = some set) (h0 : ¬ (sdel ws set).length = 0) :
    remove ws s = { s with clients := mset id (sdel ws set) s.clients } := by
  unfold remove
  simp only [hw, hid, if_false, hc, h0]

theorem remove_userOf (ws : Conn) (s : UState) :
    (remove ws s).userOf = s.userOf := by
  cases hw : mget ws s.userOf with
  | none => rw [remove_eq_of_unregistered hw]
  | some id =>
    by_cases hid : id = ""
    · subst hid
      rw [remove_eq_of_falsy hw]
    · cases hc : mget id s.clients with
      | none => rw [remove_eq_of_no_set hw hid hc]
      | some set =>
        by_cases h0 : (sdel ws set).length = 0
        · rw [remove_eq_of_drained hw hid hc h0]
        · rw [remove_eq_of_left hw hid hc h0]

theorem remove_not_mem {ws : Conn} {s : UState} (hp : Placed s)
    (hws : mget ws s.userOf ≠ some "") :
    ∀ u l, mget u (remove ws s).clients = some l → ws ∉ l := by
  intro u l hl hmem
  cases hw : mget ws s.userOf with
  | none =>
    rw [remove_eq_of_unregistered hw] at hl
    have := hp u l ws hl hmem
    rw [hw] at this
    exact Option.noConfusion this
  | some id =>
    have hid : ¬ id = "" := by
      intro e
      rw [e] at hw
      exact hws hw
    cases hc : mget id s.clients with
    | none =>
      rw [remove_eq_of_no_set hw hid hc] at hl
      have h2 := hp u l ws hl hmem
      rw [hw] at h2
      have hu : u = id := by
        injection h2 with h3
        exact h3.symm
      subst hu
      rw [hc] at hl
      exact Option.noConfusion hl
    | some set =>
      by_cases h0 : (sdel ws set).length = 0
      · rw [remove_eq_of_drained hw hid hc h0] at hl
        by_cases hu : u = id
        · subst hu
          rw [mget_mdel_self] at hl
          exact Option.noConfusion hl
        · rw [mget_mdel_ne _ hu] at hl
          have h2 := hp u l ws hl hmem
          rw [hw] at h2
          injection h2 with h3
          exact hu h3.symm
      · rw [remove_eq_of_left hw hid hc h0] at hl
        by_cases hu : u = id
        · subst hu
          rw [mget_mset_self] at hl
          injection hl with h3
          subst h3
          exact not_mem_sdel_self ws set hmem
        · rw [mget_mset_ne _ _ hu] at hl
          have h2 := hp u l ws hl hmem
          rw [hw] at h2
          injection h2 with h3
          exact hu h3.symm

theorem remove_noEmpty {ws : Conn} {s : UState} (hne : NoEmpty s) :
    NoEmpty (remove ws s) := by
  intro u l hl
  cases hw : mget ws s.userOf with
  | none =>
    rw [remove_eq_of_unregistered hw] at hl
    exact hne u l hl
  | some id =>
    by_cases hid : id = ""
    · subst hid
      rw [remove_eq_of_falsy hw] at hl
      exact hne u l hl
    · cases hc : mget id s.clients with
      | none =>
        rw [remove_eq_of_no_set hw hid hc] at hl
        exact hne u l hl
      | some set =>
        by_cases h0 : (sdel ws set).length = 0
        · rw [remove_eq_of_drained hw hid hc h0] at hl
          by_cases hu : u = id
          · subst hu
            rw [mget_mdel_self] at hl
            exact Option.noConfusion hl
          · rw [mget_mdel_ne _ hu] at hl
            exact hne u l hl
        · rw [remove_eq_of_left hw hid hc h0] at hl
          by_cases hu : u = id
          · subst hu
            rw [mget_mset_self] at hl
            injection hl with h3
            subst h3
            intro hnil
            exact h0 (by rw [hnil]; rfl)
          · rw [mget_mset_ne _ _ hu] at hl
            exact hne u l hl

theorem remove_idem (ws : Conn) (s : UState) :
    remove ws (remove ws s) = remove ws s := by
  cases hw : mget ws s.userOf with
  | none =>
    rw [remove_eq_of_unregistered hw, remove_eq_of_unregistered hw]
  | some id =>
    by_cases hid : id = ""
    · subst hid
      rw [remove_eq_of_falsy hw, remove_eq_of_falsy hw]
    · cases hc : mget id s.clients with
      | none =>
        rw [remove_eq_of_no_set hw hid hc, remove_eq_of_no_set hw hid hc]
      | some set =>
        by_cases h0 : (sdel ws set).length = 0
        · rw [remove_eq_of_drained hw hid hc h0]
          have hw2 : mget ws ({ s with clients := mdel id s.clients } : UState).userOf = some id := hw
          have hc2 : mget id ({ s with clients := mdel id s.clients } : UState).clients = none :=
            mget_mdel_self id s.clients
          rw [remove_eq_of_no_set hw2 hid hc2]
        · rw [remove_eq_of_left hw hid hc h0]
          have hw2 : mget ws ({ s with clients := mset id (sdel ws set) s.clients } : UState).userOf = some id := hw
          have hc2 : mget id ({ s with clients := mset id (sdel ws set) s.clients } : UState).clients = some (sdel ws set) :=
            mget_mset_self id (sdel ws set) s.clients
          have h02 : ¬ (sdel ws (sdel ws set)).length = 0 := by
            rw [sdel_sdel_self]
            exact h0
          rw [remove_eq_of_left hw2 hid hc2 h02]
          simp only [sdel_sdel_self, mset_mset_self]

theorem remove_shrink (d : Conn) (s : UState) :
    ∀ u l, mget u (remove d s).clients = some l →
      ∃ l0, mget u s.clients = some l0 ∧ ∀ x, x ∈ l → x ∈ l0 := by
  intro u l hl
  cases hw : mget d s.userOf with
  | none =>
    rw [remove_eq_of_unregistered hw] at hl
    exact ⟨l, hl, fun x hx => hx⟩
  | some id =>
    by_cases hid : id = ""
    · subst hid
      rw [remove_eq_of_falsy hw] at hl
      exact ⟨l, hl, fun x hx => hx⟩
    · cases hc : mget id s.clients with
      | none =>
        rw [remove_eq_of_no_set hw hid hc] at hl
        exact ⟨l, hl, fun x hx => hx⟩
      | some set =>
        by_cases h0 : (sdel d set).length = 0
        · rw [remove_eq_of_drained hw hid hc h0] at hl
          by_cases hu : u = id
          · subst hu
            rw [mget_mdel_self] at hl
            exact Option.noConfusion hl
          · rw [mget_mdel_ne _ hu] at hl
            exact ⟨l, hl, fun x hx => hx⟩
        · rw [remove_eq_of_left hw hid hc h0] at hl
          by_cases hu : u = id
          · subst hu
            rw [mget_mset_self] at hl
            injection hl with h3
            subst h3
            exact ⟨set, hc, fun x hx => (mem_sdel_iff.mp hx).1⟩
          · rw [mget_mset_ne _ _ hu] at hl
            exact ⟨l, hl, fun x hx => hx⟩

theorem placed_remove {s : UState} (hp : Placed s) (d : Conn) :
    Placed (remove d s) := by
  intro u l ws hl hm
  obtain ⟨l0, hl0, hsub⟩ := remove_shrink d s u l hl
  rw [remove_userOf]
  exact hp u l0 ws hl0 (hsub ws hm)

theorem not_mem_clients_remove {c : Conn} {s : UState}
    (h : ∀ u l, mget u s.clients = some l → c ∉ l) (d : Conn) :
    ∀ u l, mget u (remove d s).clients = some l → c ∉ l := by
  intro u l hl hm
  obtain ⟨l0, hl0, hsub⟩ := remove_shrink d s u l hl
  exact h u l0 hl0 (hsub c hm)

theorem foldl_remove_preserve {c : Conn} :
    ∀ (ds : List Conn) (s : UState),
      (∀ u l, mget u s.clients = some l → c ∉ l) →
      ∀ u l, mget u (ds.foldl (fun st d => remove d st) s).clients = some l → c ∉ l := by
  intro ds
  induction ds with
  | nil =>
    intro s h
    exact h
  | cons d t ih =>
    intro s h
    simp only [List.foldl_cons]
    exact ih (remove d s) (not_mem_clients_remove h d)

theorem foldl_remove_not_mem {c : Conn} :
    ∀ (ds : List Conn) (s : UState), Placed s → mget c s.userOf ≠ some "" →
      c ∈ ds →
      ∀ u l, mget u (ds.foldl (fun st d => remove d st) s).clients = some l → c ∉ l := by
  intro ds
  induction ds with
  | nil =>
    intro s _ _ h
    exact absurd h (List.not_mem_nil c)
  | cons d t ih =>
    intro s hp hws hmem
    simp only [List.foldl_cons]
    by_cases hcd : c = d
    · subst hcd
      exact foldl_remove_preserve t (remove c s) (remove_not_mem hp hws)
    · have hct : c ∈ t := by
        cases List.mem_cons.mp hmem with
        | inl h => exact absurd h hcd
        | inr h => exact h
      have hws2 : mget c (remove d s).userOf ≠ some "" := by
        rw [remove_userOf]
        exact hws
      exact ih (remove d s) (placed_remove hp d) hws2 hct

/-! ### Lemmas about the heartbeat tick -/

theorem foldl_mset_false (c : Conn) :
    ∀ (l : List Conn) (m : List (Conn × Bool)),
      mget c (l.foldl (fun m d => mset d false m) m) =
        if c ∈ l then some false else mget c m := by
  intro l
  induction l with
  | nil =>
    intro m
    simp
  | cons d t ih =>
    intro m
    simp only [List.foldl_cons]
    rw [ih]
    by_cases hct : c ∈ t
    · simp [hct]
    · by_cases hcd : c = d
      · subst hcd
        simp [hct, mget_mset_self]
      · simp [hct, hcd, mget_mset_ne _ _ hcd]

theorem foldl_mdel (k : α) :
    ∀ (l : List α) (m : List (α × β)),
      mget k (l.foldl (fun m j => mdel j m) m) =
        if k ∈ l then none else mget k m := by
  intro l
  induction l with
  | nil =>
    intro m
    simp
  | cons j t ih =>
    intro m
    simp only [List.foldl_cons]
    rw [ih]
    by_cases hkt : k ∈ t
    · simp [hkt]
    · by_cases hkj : k = j
      · subst hkj
        simp [hkt, mget_mdel_self]
      · simp [hkt, hkj, mget_mdel_ne _ hkj]

theorem tick_terminated_mem {c : Conn} {tracked : List Conn}
    {alive : List (Conn × Bool)}
    (hd : mget c alive = some false) (hm : c ∈ tracked) :
    c ∈ (tick tracked alive).terminated := by
  simp [tick, List.mem_filter, hm, hd]

theorem tick_live {c : Conn} {tracked : List Conn}
    {alive : List (Conn × Bool)}
    (hl : mget c alive = some true) (hm : c ∈ tracked) :
    mget c (tick tracked alive).alive = some false ∧
    c ∈ (tick tracked alive).probed ∧
    c ∉ (tick tracked alive).terminated := by
  have hne : ¬ mget c alive = some false := by
    rw [hl]
    intro h
    exact Bool.noConfusion (Option.some.inj h)
  refine ⟨?_, ?_, ?_⟩
  · show mget c ((tracked.filter
        (fun c => ! decide (mget c alive = some false))).foldl
          (fun m c => mset c false m) alive) = some false
    rw [foldl_mset_false]
    simp [List.mem_filter, hm, hne]
  · simp [tick, List.mem_filter, hm, hne]
  · simp [tick, List.mem_filter, hne]

/-! ### Claim theorems -/

/-- C1 counterexample: connection 0 is registered under the empty-string
user id — a reachable state, since the empty string passes the register
handler shape check `typeof msg.userId === "string"` — and the falsy
guard `if (!id) return` makes `remove` a no-op there, so after
`remove(0)` the registry still references connection 0, refuting the
claim that no mapping references the connection after removal. -/
theorem c1_remove_empty_userid_noop :
    remove 0 (UState.mk [("", [0])] [(0, "")]) =
      UState.mk [("", [0])] [(0, "")] ∧
    mget "" (remove 0 (UState.mk [("", [0])] [(0, "")])).clients = some [0] := by
  constructor <;> decide

/-- C1 amended: after `remove(conn)` completes, provided the registered
user id of `conn` is not the empty string, `conn` is absent from every
user connection set; no user maps to an empty set (a drained user entry
is deleted); a second `remove(conn)` changes no registry state; and
`remove` changes no registry state on a connection that was never
registered — or whose user id is the empty string, which the falsy guard
`if (!id) return` skips, leaving the connection in the registry.  The two
hypotheses are the invariants of the reachable server states: a
connection is filed only under the user id stored in its own `userId`
field, and no empty set persists. -/
theorem c1_remove_clean (ws : Conn) (s : UState)
    (hp : Placed s) (hne : NoEmpty s) :
    (mget ws s.userOf ≠ some "" →
      ∀ u l, mget u (remove ws s).clients = some l → ws ∉ l) ∧
    (∀ u l, mget u (remove ws s).clients = some l → l ≠ []) ∧
    remove ws (remove ws s) = remove ws s ∧
    (mget ws s.userOf = none → remove ws s = s) ∧
    (mget ws s.userOf = some "" → remove ws s = s) :=
  ⟨fun hws => remove_not_mem hp hws, fun u l hl => remove_noEmpty hne u l hl,
   remove_idem ws s, fun hw => remove_eq_of_unregistered hw,
   fun hw => remove_eq_of_falsy hw⟩

/-- Witness for C1 at a concrete two-connection registry. -/
theorem c1_remove_clean_witness :
    remove 0 (remove 0 (UState.mk [("u1", [1, 0])] [(1, "u1"), (0, "u1")])) =
      remove 0 (UState.mk [("u1", [1, 0])] [(1, "u1"), (0, "u1")]) := by
  have hp : Placed (UState.mk [("u1", [1, 0])] [(1, "u1"), (0, "u1")]) := by
    intro u l ws hl hm
    by_cases hu : ("u1" : String) = u
    · subst hu
      simp only [mget, if_pos rfl] at hl
      injection hl with h2
      subst h2
      simp only [List.mem_cons, List.not_mem_nil, or_false] at hm
      rcases hm with h | h <;> subst h <;> decide
    · simp [mget, hu] at hl
  have hne : NoEmpty (UState.mk [("u1", [1, 0])] [(1, "u1"), (0, "u1")]) := by
    intro u l hl
    by_cases hu : ("u1" : String) = u
    · subst hu
      simp only [mget, if_pos rfl] at hl
      injection hl with h2
      subst h2
      simp
    · simp [mget, hu] at hl
  exact (c1_remove_clean 0 _ hp hne).2.2.1

/-- C3 counterexample: in the Bun variant the current subscriber of job
"j1" is connection 1, which overwrote the earlier subscription of
connection 0; the claim says closing connection 0 leaves the "j1" entry
unchanged, but `jclose 0` deletes it. -/
theorem c3_close_deletes_overwritten_entry :
    mget "j1" (JState.mk [(0, "a"), (1, "b")] [(0, ["j1"]), (1, ["j1"])]
        [("j1", 1)]).jobSubscriptions = some 1 ∧
    mget "j1" (jclose 0 (JState.mk [(0, "a"), (1, "b")]
        [(0, ["j1"]), (1, ["j1"])] [("j1", 1)])).jobSubscriptions = none := by
  constructor <;> rfl

/-- C3 amended: the Bun close handler deletes the `jobId -> connection`
entry for every job id recorded in the closing connection job set,
unconditionally — even when the current subscriber is a different
connection; entries for job ids outside that set are left unchanged. -/
theorem c3_close_jobmap (ws : Conn) (s : JState) (J : JobId) :
    mget J (jclose ws s).jobSubscriptions =
      if J ∈ (mget ws s.clientJobs).getD [] then none
      else mget J s.jobSubscriptions := by
  show mget J (((mget ws s.clientJobs).getD []).foldl
      (fun m j => mdel j m) s.jobSubscriptions) = _
  rw [foldl_mdel]

/-- C4: once a connection is registered, every further inbound frame —
including a second register attempt — is ignored by both user-keyed
variants: the handler emits no action, the `registered` flag stays set,
and the registry state (hence the stored owning user identity) is left
exactly as it was, over any sequence of subsequent frames. -/
theorem c4_register_once (ws : Conn) (s : UState) :
    (∀ m, handleMessage ws m true s = (true, s, [])) ∧
    (∀ m, hbHandleMessage ws m true s = (true, s, [])) ∧
    (∀ msgs, runMessages ws msgs (true, s) = (true, s)) ∧
    (∀ msgs, hbRunMessages ws msgs (true, s) = (true, s)) := by
  have h1 : ∀ m, handleMessage ws m true s = (true, s, []) := by
    intro m
    rfl
  have h2 : ∀ m, hbHandleMessage ws m true s = (true, s, []) := by
    intro m
    cases m <;> rfl
  refine ⟨h1, h2, ?_, ?_⟩
  · intro msgs
    induction msgs with
    | nil => rfl
    | cons m t ih =>
      simp only [runMessages, List.foldl_cons, h1] at ih ⊢
      exact ih
  · intro msgs
    induction msgs with
    | nil => rfl
    | cons m t ih =>
      simp only [hbRunMessages, List.foldl_cons, h2] at ih ⊢
      exact ih

/-- C5: `send` delivers to exactly the open connections of the user set
(in set order), the delivery count is the number of those sends, the
payload is serialized once when the user has an entry and the whole call
is a no-op returning count zero when the user has no entry (no error:
the function is total). -/
theorem c5_send_spec (openS : Conn → Bool) (u : UserId) (s : UState) :
    (∀ set, mget u s.clients = some set →
      send openS u s = set.filter openS ∧ serializeCount u s = 1) ∧
    (mget u s.clients = none →
      send openS u s = [] ∧ sendCount openS u s = 0 ∧ serializeCount u s = 0) ∧
    sendCount openS u s = (send openS u s).length ∧
    (∀ c, c ∈ send openS u s → openS c = true) ∧
    (∀ set c, mget u s.clients = some set → c ∈ set → openS c = true →
      c ∈ send openS u s) := by
  refine ⟨?_, ?_, rfl, ?_, ?_⟩
  · intro set hset
    constructor
    · show (match mget u s.clients with
        | none => [] | some set => set.filter openS) = set.filter openS
      rw [hset]
    · show (match mget u s.clients with
        | none => 0 | some _ => 1) = 1
      rw [hset]
  · intro hnone
    refine ⟨?_, ?_, ?_⟩
    · show (match mget u s.clients with
        | none => [] | some set => set.filter openS) = []
      rw [hnone]
    · show (send openS u s).length = 0
      have : send openS u s = [] := by
        show (match mget u s.clients with
          | none => [] | some set => set.filter openS) = []
        rw [hnone]
      rw [this]
      rfl
    · show (match mget u s.clients with
        | none => 0 | some _ => 1) = 0
      rw [hnone]
  · intro c hc
    unfold send at hc
    cases hset : mget u s.clients with
    | none =>
      rw [hset] at hc
      exact absurd hc (List.not_mem_nil c)
    | some set =>
      rw [hset] at hc
      exact (List.mem_filter.mp hc).2
  · intro set c hset hmem hopen
    unfold send
    rw [hset]
    exact List.mem_filter.mpr ⟨hmem, hopen⟩

/-- Witness for C5 at a concrete registry with one open and one closed
connection. -/
theorem c5_send_spec_witness :
    send (fun c => decide (c = 1)) "u1" (UState.mk [("u1", [1, 2])] []) =
      [1, 2].filter (fun c => decide (c = 1)) ∧
    serializeCount "u1" (UState.mk [("u1", [1, 2])] []) = 1 :=
  (c5_send_spec (fun c => decide (c = 1)) "u1"
    (UState.mk [("u1", [1, 2])] [])).1 [1, 2] rfl

/-- C7 counterexample: in the heartbeat variant a malformed-JSON first
frame on a fresh (unregistered) connection is logged and dropped: the
handler emits no action at all — in particular no close — contradicting
the claim that every invalid first message closes the connection with a
protocol-violation code. -/
theorem c7_hb_badjson_not_closed :
    hbHandleMessage 0 InMsg.badJson false (UState.mk [] []) =
      (false, UState.mk [] [], []) := rfl

/-- C7 amended: on a fresh connection the basic variant closes with code
1003 and a human-readable reason on both malformed JSON and a well-formed
non-register frame, while the heartbeat variant silently drops malformed
JSON (no close, connection stays pending) and closes with 1003 only on a
well-formed non-register frame; in every case the registered flag does
not transition and the registry state is untouched, so the connection
never appears in any registry map. -/
theorem c7_invalid_first_message (ws : Conn) (s : UState) :
    handleMessage ws InMsg.badJson false s =
      (false, s, [Action.close ws 1003 "Invalid JSON"]) ∧
    handleMessage ws InMsg.other false s =
      (false, s, [Action.close ws 1003 "First message must be register"]) ∧
    hbHandleMessage ws InMsg.badJson false s = (false, s, []) ∧
    hbHandleMessage ws InMsg.other false s =
      (false, s, [Action.close ws 1003 "First message must be a register message"]) :=
  ⟨rfl, rfl, rfl, rfl⟩

/-- C2: after connection `A` and then connection `B` subscribe to job `J`,
the job map binds `J` to `B` alone, and routing a job-update event for
`J` never delivers to `A`: it delivers to `B` exactly when `B` is open,
and to nobody else. -/
theorem c2_last_writer_wins (A B : Conn) (J : JobId) (s : JState)
    (openS : Conn → Bool) (hJ : ¬ J = "") (hAB : A ≠ B) :
    mget J (afterTwoSubscribes A B J s).jobSubscriptions = some B ∧
    A ∉ routeJob openS J (afterTwoSubscribes A B J s) ∧
    (∀ c, c ∈ routeJob openS J (afterTwoSubscribes A B J s) → c = B) ∧
    (openS B = true → routeJob openS J (afterTwoSubscribes A B J s) = [B]) := by
  have hsub : mget J (afterTwoSubscribes A B J s).jobSubscriptions = some B := by
    unfold afterTwoSubscribes jmessage
    simp only [hJ, if_false]
    exact mget_mset_self _ _ _
  have hroute : routeJob openS J (afterTwoSubscribes A B J s) =
      if openS B then [B] else [] := by
    simp only [routeJob, hsub]
  refine ⟨hsub, ?_, ?_, ?_⟩
  · rw [hroute]
    by_cases hB : openS B
    · simp [hB, hAB]
    · simp [hB]
  · intro c hc
    rw [hroute] at hc
    by_cases hB : openS B
    · rw [if_pos hB] at hc
      simpa using hc
    · rw [if_neg hB] at hc
      exact absurd hc (List.not_mem_nil c)
  · intro hB
    rw [hroute, if_pos hB]

/-- Witness for C2: connections 0 then 1 subscribe to "j1"; a job update
for "j1" is delivered to connection 1 alone. -/
theorem c2_last_writer_wins_witness :
    routeJob (fun _ => true) "j1" (afterTwoSubscribes 0 1 "j1" (JState.mk [] [] [])) = [1] :=
  (c2_last_writer_wins 0 1 "j1" (JState.mk [] [] []) (fun _ => true)
    (by decide) (by decide)).2.2.2 rfl

/-- C6: registering connections `A` and `B` for user `U` makes `send`
deliver to each of them that is open; after `remove(A)` the connection
`B` is still present in the user set of `U`, and a subsequent `send`
still delivers to `B` when it is open. -/
theorem c6_multiplicity (U : UserId) (A B : Conn) (s : UState)
    (openS : Conn → Bool) (hAB : A ≠ B) :
    (openS A = true → A ∈ send openS U (add U B (add U A s))) ∧
    (openS B = true → B ∈ send openS U (add U B (add U A s))) ∧
    (∃ l, mget U (remove A (add U B (add U A s))).clients = some l ∧ B ∈ l) ∧
    (openS B = true → B ∈ send openS U (remove A (add U B (add U A s)))) := by
  have h1 : mget U (add U A s).clients =
      some (sadd A ((mget U s.clients).getD [])) := by
    show mget U (mset U (sadd A ((mget U s.clients).getD [])) s.clients) = _
    exact mget_mset_self _ _ _
  have h2 : mget U (add U B (add U A s)).clients =
      some (sadd B (sadd A ((mget U s.clients).getD []))) := by
    show mget U (mset U (sadd B ((mget U (add U A s).clients).getD []))
        (add U A s).clients) = _
    rw [mget_mset_self, h1, Option.getD_some]
  have memB : B ∈ sadd B (sadd A ((mget U s.clients).getD [])) :=
    mem_sadd_self _ _
  have memA : A ∈ sadd B (sadd A ((mget U s.clients).getD [])) :=
    mem_sadd_of_mem B (mem_sadd_self _ _)
  have hsend2 : send openS U (add U B (add U A s)) =
      (sadd B (sadd A ((mget U s.clients).getD []))).filter openS := by
    simp only [send, h2]
  have hw : mget A (add U B (add U A s)).userOf = some U := by
    show mget A (mset B U (mset A U s.userOf)) = some U
    rw [mget_mset_ne _ _ hAB]
    exact mget_mset_self _ _ _
  have hB2 : B ∈ sdel A (sadd B (sadd A ((mget U s.clients).getD []))) :=
    mem_sdel_iff.mpr ⟨memB, Ne.symm hAB⟩
  have h0 : ¬ (sdel A (sadd B (sadd A ((mget U s.clients).getD [])))).length = 0 := by
    intro h
    exact (List.ne_nil_of_mem hB2) (List.length_eq_zero.mp h)
  have h3 : ∃ l, mget U (remove A (add U B (add U A s))).clients = some l ∧ B ∈ l := by
    by_cases hU : U = ""
    · subst hU
      rw [remove_eq_of_falsy hw]
      exact ⟨_, h2, memB⟩
    · rw [remove_eq_of_left hw hU h2 h0]
      exact ⟨_, mget_mset_self _ _ _, hB2⟩
  refine ⟨?_, ?_, h3, ?_⟩
  · intro hA
    rw [hsend2]
    exact List.mem_filter.mpr ⟨memA, hA⟩
  · intro hB
    rw [hsend2]
    exact List.mem_filter.mpr ⟨memB, hB⟩
  · intro hB
    obtain ⟨l, hl, hBl⟩ := h3
    have : send openS U (remove A (add U B (add U A s))) = l.filter openS := by
      simp only [send, hl]
    rw [this]
    exact List.mem_filter.mpr ⟨hBl, hB⟩

/-- Witness for C6: user "u1" registers connections 0 and 1; after
removing 0, a send still delivers to 1. -/
theorem c6_multiplicity_witness :
    1 ∈ send (fun _ => true) "u1" (remove 0 (add "u1" 1 (add "u1" 0 (UState.mk [] [])))) :=
  (c6_multiplicity "u1" 0 1 (UState.mk [] []) (fun _ => true) (by decide)).2.2.2 rfl

/-- C8: a subscribe frame from a tracked (connected) client of the Bun
variant sets the job map entry for that job to the client, adds the job
id to the client job set, and acks with a subscribed frame on the same
connection. -/
theorem c8_subscribe_ack (ws : Conn) (J : JobId) (s : JState)
    (js : List JobId) (hJ : ¬ J = "") (hjs : mget ws s.clientJobs = some js) :
    mget J ((jmessage ws (JMsg.subscribe J) s).1).jobSubscriptions = some ws ∧
    mget ws ((jmessage ws (JMsg.subscribe J) s).1).clientJobs = some (sadd J js) ∧
    J ∈ sadd J js ∧
    (jmessage ws (JMsg.subscribe J) s).2 = [Action.sendMsg ws (OutMsg.subscribed J)] := by
  unfold jmessage
  simp only [hJ, if_false, hjs]
  exact ⟨mget_mset_self _ _ _, mget_mset_self _ _ _, mem_sadd_self _ _, trivial⟩

/-- Witness for C8: a freshly opened connection 0 subscribes to "j1". -/
theorem c8_subscribe_ack_witness :
    mget "j1" ((jmessage 0 (JMsg.subscribe "j1")
      (jopen 0 "a" (JState.mk [] [] [])).1).1).jobSubscriptions = some 0 :=
  (c8_subscribe_ack 0 "j1" (jopen 0 "a" (JState.mk [] [] [])).1 []
    (by decide) rfl).1

/-- C9 counterexample: socket 0 is dead at the tick and is terminated,
but it is registered under the empty-string user id, so the close path
(`removeClient`) hits the falsy guard `if (!uid) return` and the
registry still references the terminated socket — refuting the claim
that the close path then removes it from the registry. -/
theorem c9_reap_empty_userid_skips :
    0 ∈ (tick [0] [(0, false)]).terminated ∧
    mget "" (reap [0] [(0, false)]
      (UState.mk [("", [0])] [(0, "")])).clients = some [0] := by
  constructor <;> decide

/-- C9 amended: at a heartbeat tick, a tracked socket whose liveness
flag is false is terminated, and the close path (which runs
`removeClient` on each terminated socket) leaves it in no user
connection set provided its registered user id is not the empty string
(for the empty string the falsy guard makes `removeClient` a no-op and
the socket stays in the registry); a tracked socket whose flag is true
is not terminated, has its flag reset to false and is probed; and a
received pong sets the flag back to true.  The hypothesis is the
placement invariant of the reachable registry states. -/
theorem c9_heartbeat_reap (tracked : List Conn) (alive : List (Conn × Bool))
    (c : Conn) (s : UState) (hp : Placed s) :
    (mget c alive = some false → c ∈ tracked →
      c ∈ (tick tracked alive).terminated ∧
      (mget c s.userOf ≠ some "" →
        ∀ u l, mget u (reap tracked alive s).clients = some l → c ∉ l)) ∧
    (mget c alive = some true → c ∈ tracked →
      mget c (tick tracked alive).alive = some false ∧
      c ∈ (tick tracked alive).probed ∧
      c ∉ (tick tracked alive).terminated) ∧
    mget c (pongHandler c alive) = some true := by
  refine ⟨?_, ?_, mget_mset_self c true alive⟩
  · intro hd hm
    have ht := tick_terminated_mem hd hm
    exact ⟨ht, fun hws =>
      foldl_remove_not_mem (tick tracked alive).terminated s hp hws ht⟩
  · intro hl hm
    exact tick_live hl hm

/-- Witness for C9: socket 0 missed its pong and is terminated at the
tick; socket 1 answered and is probed again. -/
theorem c9_heartbeat_reap_witness :
    0 ∈ (tick [0, 1] [(0, false), (1, true)]).terminated := by
  have hp : Placed (UState.mk [("u1", [0])] [(0, "u1")]) := by
    intro u l ws hl hm
    by_cases hu : ("u1" : String) = u
    · subst hu
      simp only [mget, if_pos rfl] at hl
      injection hl with h2
      subst h2
      simp only [List.mem_cons, List.not_mem_nil, or_false] at hm
      subst hm
      decide
    · simp [mget, hu] at hl
  exact ((c9_heartbeat_reap [0, 1] [(0, false), (1, true)] 0
    (UState.mk [("u1", [0])] [(0, "u1")]) hp).1 rfl (by decide)).1

theorem jreach_strong : ∀ s : JState, JReach s → JInv s ∧ JKeysEq s := by
  intro s h
  induction h with
  | init =>
    constructor
    · intro J w hw
      exact absurd hw (by simp [mget])
    · intro w
      simp [mget]
  | opened ws cid s hr hfresh ih =>
    obtain ⟨hinv, hkeys⟩ := ih
    constructor
    · intro J w hw
      have hw0 : mget J s.jobSubscriptions = some w := hw
      obtain ⟨hcid, js, hjs, hJjs⟩ := hinv J w hw0
      have hne : w ≠ ws := by
        intro e
        exact hcid (e ▸ hfresh)
      constructor
      · show mget w (mset ws cid s.clientIds) ≠ none
        rw [mget_mset_ne _ _ hne]
        exact hcid
      · refine ⟨js, ?_, hJjs⟩
        show mget w (mset ws [] s.clientJobs) = some js
        rw [mget_mset_ne _ _ hne]
        exact hjs
    · intro w
      by_cases hwws : w = ws
      · subst hwws
        show mget w (mset w cid s.clientIds) = none ↔
          mget w (mset w ([] : List JobId) s.clientJobs) = none
        rw [mget_mset_self, mget_mset_self]
        simp
      · show mget w (mset ws cid s.clientIds) = none ↔
          mget w (mset ws ([] : List JobId) s.clientJobs) = none
        rw [mget_mset_ne _ _ hwws, mget_mset_ne _ _ hwws]
        exact hkeys w
  | message ws m s hr htr ih =>
    obtain ⟨hinv, hkeys⟩ := ih
    cases m with
    | other => exact ⟨hinv, hkeys⟩
    | badJson => exact ⟨hinv, hkeys⟩
    | subscribe J =>
      by_cases hJ : J = ""
      · simp only [jmessage, hJ, if_true]
        exact ⟨hinv, hkeys⟩
      · have hjobs : mget ws s.clientJobs ≠ none := by
          intro h
          exact htr ((hkeys ws).mpr h)
        obtain ⟨js0, hjs0⟩ : ∃ js0, mget ws s.clientJobs = some js0 := by
          cases hc : mget ws s.clientJobs with
          | none => exact absurd hc hjobs
          | some js0 => exact ⟨js0, rfl⟩
        constructor
        · intro J' w hw'
          simp only [jmessage, hJ, if_false, hjs0] at hw' ⊢
          by_cases hJJ : J' = J
          · subst hJJ
            rw [mget_mset_self] at hw'
            injection hw' with hww
            subst hww
            refine ⟨htr, sadd J' js0, mget_mset_self _ _ _, mem_sadd_self _ _⟩
          · rw [mget_mset_ne _ _ hJJ] at hw'
            obtain ⟨hcid, js, hjs, hJ'js⟩ := hinv J' w hw'
            refine ⟨hcid, ?_⟩
            by_cases hwws : w = ws
            · subst hwws
              have : js = js0 := by
                rw [hjs0] at hjs
                exact (Option.some.inj hjs).symm
              subst this
              exact ⟨sadd J js, mget_mset_self _ _ _, mem_sadd_of_mem J hJ'js⟩
            · exact ⟨js, by rw [mget_mset_ne _ _ hwws]; exact hjs, hJ'js⟩
        · intro w
          simp only [jmessage, hJ, if_false, hjs0]
          by_cases hwws : w = ws
          · subst hwws
            rw [mget_mset_self]
            constructor
            · intro h
              exact absurd h htr
            · intro h
              exact Option.noConfusion h
          · rw [mget_mset_ne _ _ hwws]
            exact hkeys w
  | closed ws s hr ih =>
    obtain ⟨hinv, hkeys⟩ := ih
    constructor
    · intro J w hw'
      have hw2 : (if J ∈ (mget ws s.clientJobs).getD [] then none
          else mget J s.jobSubscriptions) = some w := by
        rw [← foldl_mdel]
        exact hw'
      by_cases hJjobs : J ∈ (mget ws s.clientJobs).getD []
      · rw [if_pos hJjobs] at hw2
        exact Option.noConfusion hw2
      · rw [if_neg hJjobs] at hw2
        obtain ⟨hcid, js, hjs, hJjs⟩ := hinv J w hw2
        have hne : w ≠ ws := by
          intro e
          subst e
          rw [hjs] at hJjobs
          exact hJjobs hJjs
        constructor
        · show mget w (mdel ws s.clientIds) ≠ none
          rw [mget_mdel_ne _ hne]
          exact hcid
        · refine ⟨js, ?_, hJjs⟩
          show mget w (mdel ws s.clientJobs) = some js
          rw [mget_mdel_ne _ hne]
          exact hjs
    · intro w
      by_cases hwws : w = ws
      · subst hwws
        show mget w (mdel w s.clientIds) = none ↔
          mget w (mdel w s.clientJobs) = none
        rw [mget_mdel_self, mget_mdel_self]
        simp
      · show mget w (mdel ws s.clientIds) = none ↔
          mget w (mdel ws s.clientJobs) = none
        rw [mget_mdel_ne _ hwws, mget_mdel_ne _ hwws]
        exact hkeys w

/-- C10: every reachable state of the three Bun maps satisfies the
invariant that a job map entry `J -> ws` implies `ws` is tracked in
`clientIds` and `clientJobs[ws]` exists and contains `J`; the open,
message and close handlers each preserve it (they are the step relation
of `JReach`). -/
theorem c10_job_invariant (s : JState) (h : JReach s) : JInv s :=
  (jreach_strong s h).1

/-- Witness for C10 at the reachable state where connection 0 opened and
subscribed to "j1". -/
theorem c10_job_invariant_witness :
    mget 0 ((jmessage 0 (JMsg.subscribe "j1")
        (jopen 0 "a" (JState.mk [] [] [])).1).1).clientIds ≠ none ∧
    ∃ js, mget 0 ((jmessage 0 (JMsg.subscribe "j1")
        (jopen 0 "a" (JState.mk [] [] [])).1).1).clientJobs = some js ∧
      "j1" ∈ js := by
  have h1 : JReach (jopen 0 "a" (JState.mk [] [] [])).1 :=
    JReach.opened 0 "a" (JState.mk [] [] []) JReach.init rfl
  have h2 : JReach ((jmessage 0 (JMsg.subscribe "j1")
      (jopen 0 "a" (JState.mk [] [] [])).1).1) :=
    JReach.message 0 (JMsg.subscribe "j1") _ h1 (by decide)
  exact c10_job_invariant _ h2 "j1" 0 (by decide)

end WsRelay
